import Mathlib

/-!
# Verification of the yew virtual-dom reconciliation core

Shallow embedding of `src/virtual_dom/vcomp.rs` (the component mount
state machine and the property/callback transformer) and
`src/virtual_dom/vlist.rs` (the positional list reconciler).

External collaborators (the stdweb DOM primitives and the component
runtime `Scope`) are modelled from the spec interface section:
the host parent element is a list of node identifiers, and every
observable side effect (teardown, property update, fresh mount, DOM
mutation) is logged into an event trace.
-/

namespace Yew

/-- Observable side effects of `apply` / `detach`.
`destroy i` is an invocation of a `Mounted` payload's destroyer
(`scope.destroy()` of instance `i`); `updateProps i` is
`scope.update(ComponentUpdate::Properties(..))` on instance `i`;
`mountInstance i` is a fresh `Scope::new().mount_in_place(..)`
constructing instance `i`; the remaining events are the Host Tree
Adapter primitives from the spec. -/
inductive Event where
  | destroy (inst : Nat)
  | updateProps (inst : Nat)
  | mountInstance (inst : Nat)
  | removeChild (node : Nat)
  | insertBefore (node sibling : Nat)
  | appendChild (node : Nat)
  | createTextNode (node : Nat)
  | createNode (node : Nat)
  | setScopeHolder
  deriving DecidableEq, Repr

/-- The world the reconciler mutates: the host parent element's ordered
child list (`tree`), a counter supplying fresh node/instance
identifiers, and the event trace. -/
structure World where
  tree : List Nat
  fresh : Nat
  events : List Event
  deriving DecidableEq, Repr

/-- `node.next_sibling()` of the Host Tree Adapter: the node right
after the first occurrence of `n` in the parent's child list. -/
def nextSibling : List Nat → Nat → Option Nat
  | [], _ => none
  | x :: xs, n => if x = n then xs.head? else nextSibling xs n

/-- `parent.remove_child(n)`: removes the first occurrence, `none`
when the node is absent (the Rust side `expect`s, i.e. panics). -/
def removeChildList : List Nat → Nat → Option (List Nat)
  | [], _ => none
  | x :: xs, n => if x = n then some xs else (removeChildList xs n).map (x :: ·)

/-- `parent.insert_before(d, s)`: inserts `d` before the first
occurrence of `s`; `none` when `s` is absent (Rust panics). -/
def insertBeforeList : List Nat → Nat → Nat → Option (List Nat)
  | [], _, _ => none
  | x :: xs, d, s => if x = s then some (d :: x :: xs) else (insertBeforeList xs d s).map (x :: ·)

/-- The component's own mounting protocol replaces the placeholder with
its real rendered root (spec section 4.1 step 5): substitute `old` by
`new` in the child list. -/
def replaceNodeList : List Nat → Nat → Nat → List Nat
  | [], _, _ => []
  | x :: xs, old, new =>
    if x = old then new :: xs else x :: replaceNodeList xs old new

def World.log (w : World) (e : Event) : World :=
  { w with events := w.events ++ [e] }

def World.removeChild (w : World) (n : Nat) : Except String World :=
  match removeChildList w.tree n with
  | some t => .ok { w with tree := t, events := w.events ++ [.removeChild n] }
  | none => .error "cant remove the component"

def World.insertBefore (w : World) (d s : Nat) : Except String World :=
  match insertBeforeList w.tree d s with
  | some t => .ok { w with tree := t, events := w.events ++ [.insertBefore d s] }
  | none => .error "cant insert before an absent sibling"

def World.appendChild (w : World) (n : Nat) : World :=
  { w with tree := w.tree ++ [n], events := w.events ++ [.appendChild n] }

/-! ## The component mount state machine (`vcomp.rs`) -/

/-- The type-erased `HiddenScope` pointer: it identifies the live
component instance (`inst`) and, through the component runtime, the
host node the instance currently occupies (`node`). `TypeId`s are
numbers. -/
structure ScopeH where
  inst : Nat
  node : Option Nat
  deriving DecidableEq, Repr

/-- The `Mounted` payload: the `NodeRef` contents, the type-erased
scope handle, and the destroyer (which destroys instance
`destroyer`; in the source it is `move || scope.destroy()`). -/
structure Mounted where
  node_ref : Option Nat
  scope : ScopeH
  destroyer : Nat
  deriving DecidableEq, Repr

/-- `MountState<PARENT>`. The `Unmounted` payload is the one-shot
generator built by `VComp::new::<SELF>`; all the generator closes over
that the claims can observe is `TypeId::of::<SELF>()`, kept as
`genKind`. -/
inductive MountState where
  | unmounted (genKind : Nat)
  | mounted (m : Mounted)
  | mounting
  | detached
  | overwritten
  deriving DecidableEq, Repr

structure VComp where
  type_id : Nat
  state : MountState
  deriving DecidableEq, Repr

/-- `VComp::new::<SELF>`: records `TypeId::of::<SELF>()` both as the
node's `type_id` and inside the generator. -/
def VComp.new (k : Nat) : VComp :=
  { type_id := k, state := .unmounted k }

/-- `GeneratorType`: mount onto a dummy text node, or overwrite an
existing component taking its type id and scope pointer. -/
inductive GeneratorType where
  | mount (dummy : Nat)
  | overwrite (type_id : Nat) (scope : ScopeH)
  deriving DecidableEq, Repr

/-- The generator closure from `VComp::new`. It first populates the
scope holder. In `Mount` mode `Scope::new().mount_in_place(..)` is the
component runtime, modelled from the spec: a fresh instance is
constructed and its rendered root replaces the dummy node. In
`Overwrite` mode a mismatched type id panics; otherwise the unboxed
scope receives a properties update and the same instance is repacked
into a new `Mounted` payload. -/
def generator (genKind : Nat) (gt : GeneratorType) (w : World) :
    Except String (Mounted × World) :=
  let w := w.log .setScopeHolder
  match gt with
  | .mount dummy =>
    let i := w.fresh
    let root := w.fresh + 1
    let w := { w with
      fresh := w.fresh + 2,
      tree := replaceNodeList w.tree dummy root,
      events := w.events ++ [Event.mountInstance i] }
    .ok ({ node_ref := some root, scope := { inst := i, node := some root },
           destroyer := i }, w)
  | .overwrite tid scope =>
    if tid ≠ genKind then
      .error "tried to overwrite a different type of component"
    else
      let w := w.log (.updateProps scope.inst)
      .ok ({ node_ref := scope.node, scope := scope, destroyer := scope.inst }, w)

/-- `VComp::detach`: the state becomes `Detached` whatever it was; a
`Mounted` prior state runs the destroyer, then removes the occupied
node (when the `NodeRef` holds one) and returns its former next
sibling. -/
def VComp.detach (c : VComp) (w : World) :
    Except String (VComp × Option Nat × World) :=
  let c' : VComp := { c with state := .detached }
  match c.state with
  | .mounted m =>
    let w := w.log (.destroy m.destroyer)
    match m.node_ref with
    | some node =>
      let sibling := nextSibling w.tree node
      match w.removeChild node with
      | .ok w => .ok (c', sibling, w)
      | .error e => .error e
    | none => .ok (c', none, w)
  | _ => .ok (c', none, w)

/-- An ancestor virtual node as seen by `VComp::apply`: either another
component node, or any other `VNode` kind. The other kinds are
external to the two source files; per the spec's `VDiff` contract
their `detach` removes the (optional) node they occupy and returns its
former next sibling. -/
inductive CNode where
  | comp (c : VComp)
  | other (node : Option Nat)
  deriving DecidableEq, Repr

/-- Modelled from the spec: `detach` of a non-component, non-list
virtual node kind (the `Some(mut vnode) => vnode.detach(parent)` arm);
removes the occupied host node and returns its former next sibling. -/
def otherDetach (node : Option Nat) (w : World) :
    Except String (Option Nat × World) :=
  match node with
  | some n =>
    let sibling := nextSibling w.tree n
    match w.removeChild n with
    | .ok w => .ok (sibling, w)
    | .error e => .error e
  | none => .ok (none, w)

/-- `Reform`: keep the ancestor's mounted payload, or mount before the
given node. -/
inductive Reform where
  | keep (type_id : Nat) (m : Mounted)
  | before (node : Option Nat)
  deriving DecidableEq, Repr

/-- The `Reform::Before` arm of `VComp::apply`: create the dummy text
node, insert it before the vacated position's successor (else after
`previous_sibling`'s next sibling, else append), and run the generator
in mount mode on it. -/
def mountPath (genKind : Nat) (before previous_sibling : Option Nat) (w : World) :
    Except String (Mounted × World) :=
  let dummy := w.fresh
  let w := { w with fresh := w.fresh + 1,
                    events := w.events ++ [Event.createTextNode dummy] }
  match before with
  | some sibling =>
    match w.insertBefore dummy sibling with
    | .ok w => generator genKind (.mount dummy) w
    | .error e => .error e
  | none =>
    match previous_sibling.bind (nextSibling w.tree) with
    | some ps =>
      match w.insertBefore dummy ps with
      | .ok w => generator genKind (.mount dummy) w
      | .error e => .error e
    | none => generator genKind (.mount dummy) (w.appendChild dummy)

/-- `VComp::apply`. The source first swaps the state to the transient
`Mounting` guard; execution here is sequential, so the guard is only
the value a re-entrant call would read, and it is overwritten before
the call returns (by `Mounted` on the unmounted path, by the saved
state otherwise). Returns the applied node, its result, the consumed
ancestor (kept so its final state is observable) and the world. -/
def VComp.apply (c : VComp) (previous_sibling : Option Nat)
    (ancestor : Option CNode) (w : World) :
    Except String (VComp × Option Nat × Option CNode × World) :=
  match c.state with
  | .unmounted genKind =>
    let step : Except String (Reform × Option CNode × World) :=
      match ancestor with
      | some (.comp vcomp) =>
        if c.type_id = vcomp.type_id then
          let anc : VComp := { vcomp with state := .overwritten }
          match vcomp.state with
          | .mounted m => .ok (.keep vcomp.type_id m, some (.comp anc), w)
          | _ => .ok (.before none, some (.comp anc), w)
        else
          match vcomp.detach w with
          | .ok (anc, node, w) => .ok (.before node, some (.comp anc), w)
          | .error e => .error e
      | some (.other o) =>
        match otherDetach o w with
        | .ok (node, w) => .ok (.before node, some (.other none), w)
        | .error e => .error e
      | none => .ok (.before none, none, w)
    match step with
    | .error e => .error e
    | .ok (reform, anc, w) =>
      let gen : Except String (Mounted × World) :=
        match reform with
        | .keep tid m => generator genKind (.overwrite tid m.scope) w
        | .before b => mountPath genKind b previous_sibling w
      match gen with
      | .error e => .error e
      | .ok (mounted, w) =>
        let node := mounted.node_ref
        .ok ({ c with state := .mounted mounted }, node, anc, w)
  | s => .ok ({ c with state := s }, none, ancestor, w)

/-! ## The list reconciler (`vlist.rs`)

`VNode` here is the closed union the list diffing walks: a nested
`VList`, a `VText` (the placeholder kind the fixup inserts), or any
other single-node kind. The single-node kinds live outside the two
source files; their `apply`/`detach` follow the spec's `VDiff`
contract (detach the ancestor, materialize one host node at the
computed insertion point, return it). -/

inductive VNode where
  | vlist (no_siblings : Bool) (children : List VNode)
  | vtext (text : String) (occupied : Option Nat)
  | vother (occupied : Option Nat)

/-- One branch of the pairwise reconciliation loop: update-in-place
with the positionally matching old element, pure insertion, or
detach of a surplus old element. -/
inductive LTag where
  | pair (right : VNode)
  | insert
  | removeOld (right : VNode)

/-- The `rights` sequence of `VList::apply`: a list ancestor yields its
children, any other ancestor is a one-element sequence, no ancestor is
empty. -/
def listRights : Option VNode → List VNode
  | some (.vlist _ cs) => cs
  | some v => [v]
  | none => []

/-- The empty-list fixup of `VList::apply`: an empty child sequence
that may have siblings gets one empty `VText` placeholder. -/
def listFixup (no_siblings : Bool) (cs : List VNode) : List VNode :=
  if cs.isEmpty && !no_siblings then [.vtext "" none] else cs

/-- Modelled from the spec: a single-node kind materializes one fresh
host node at the insertion point (before the node the detached
ancestor vacated, else after `previous_sibling`, else appended). -/
def insertSingle (n : Nat) (before previous_sibling : Option Nat) (w : World) :
    Except String World :=
  match before with
  | some s => w.insertBefore n s
  | none =>
    match previous_sibling.bind (nextSibling w.tree) with
    | some s => w.insertBefore n s
    | none => .ok (w.appendChild n)

/-- Modelled from the spec: `detach` of a single-node kind removes the
host node it occupies and returns that node's former next sibling. -/
def singleDetach (occupied : Option Nat) (w : World) :
    Except String (Option Nat × World) :=
  match occupied with
  | some n =>
    let sibling := nextSibling w.tree n
    match w.removeChild n with
    | .ok w => .ok (sibling, w)
    | .error e => .error e
  | none => .ok (none, w)

mutual

/-- `VDiff::detach` over the `VNode` union; a list drains its children
in order and returns the last child's result. `fuel` bounds the
nesting depth only. -/
def VNode.detachF : Nat → VNode → World → Except String (VNode × Option Nat × World)
  | 0, _, _ => .error "recursion limit"
  | fuel + 1, .vlist ns cs, w =>
    match detachListF fuel cs w none with
    | .ok (last, w) => .ok (.vlist ns [], last, w)
    | .error e => .error e
  | _ + 1, .vtext t occ, w =>
    match singleDetach occ w with
    | .ok (sibling, w) => .ok (.vtext t none, sibling, w)
    | .error e => .error e
  | _ + 1, .vother occ, w =>
    match singleDetach occ w with
    | .ok (sibling, w) => .ok (.vother none, sibling, w)
    | .error e => .error e

/-- The `for child in children.drain(..) { last_sibling = child.detach(parent) }`
loop: `last` carries the running `last_sibling`. -/
def detachListF : Nat → List VNode → World → Option Nat → Except String (Option Nat × World)
  | _, [], w, last => .ok (last, w)
  | fuel, c :: cs, w, _ =>
    match VNode.detachF fuel c w with
    | .ok (_, r, w) => detachListF fuel cs w r
    | .error e => .error e

/-- `VDiff::apply` over the `VNode` union. A list computes its `rights`,
applies the empty-list fixup, and runs the pairwise loop; a single-node
kind detaches its ancestor and materializes one node (spec `VDiff`
contract). -/
def VNode.applyF : Nat → VNode → Option Nat → Option VNode → World →
    Except String (VNode × Option Nat × World)
  | 0, _, _, _, _ => .error "recursion limit"
  | fuel + 1, .vlist ns cs, ps, anc, w =>
    match applyLoopF fuel (listFixup ns cs) (listRights anc) ps w with
    | .ok (cs', res, _, w) => .ok (.vlist ns cs', res, w)
    | .error e => .error e
  | fuel + 1, .vtext t _, ps, anc, w =>
    let before : Except String (Option Nat × World) :=
      match anc with
      | some a =>
        match VNode.detachF fuel a w with
        | .ok (_, sibling, w) => .ok (sibling, w)
        | .error e => .error e
      | none => .ok (none, w)
    match before with
    | .ok (b, w) =>
      let n := w.fresh
      let w := { w with fresh := w.fresh + 1,
                        events := w.events ++ [Event.createTextNode n] }
      match insertSingle n b ps w with
      | .ok w => .ok (.vtext t (some n), some n, w)
      | .error e => .error e
    | .error e => .error e
  | fuel + 1, .vother _, ps, anc, w =>
    let before : Except String (Option Nat × World) :=
      match anc with
      | some a =>
        match VNode.detachF fuel a w with
        | .ok (_, sibling, w) => .ok (sibling, w)
        | .error e => .error e
      | none => .ok (none, w)
    match before with
    | .ok (b, w) =>
      let n := w.fresh
      let w := { w with fresh := w.fresh + 1,
                        events := w.events ++ [Event.createNode n] }
      match insertSingle n b ps w with
      | .ok w => .ok (.vother (some n), some n, w)
      | .error e => .error e
    | .error e => .error e

/-- The pairwise loop of `VList::apply`: both present is an
update-in-place whose result becomes the next `previous_sibling`; left
only is a pure insertion; right only is a detach whose result is
discarded. Returns the new children, the last `previous_sibling`, and
the branch trace. -/
def applyLoopF : Nat → List VNode → List VNode → Option Nat → World →
    Except String (List VNode × Option Nat × List LTag × World)
  | _, [], [], ps, w => .ok ([], ps, [], w)
  | fuel, l :: ls, r :: rs, ps, w =>
    match VNode.applyF fuel l ps (some r) w with
    | .ok (l', res, w) =>
      match applyLoopF fuel ls rs res w with
      | .ok (ls', res', tags, w) => .ok (l' :: ls', res', .pair r :: tags, w)
      | .error e => .error e
    | .error e => .error e
  | fuel, l :: ls, [], ps, w =>
    match VNode.applyF fuel l ps none w with
    | .ok (l', res, w) =>
      match applyLoopF fuel ls [] res w with
      | .ok (ls', res', tags, w) => .ok (l' :: ls', res', .insert :: tags, w)
      | .error e => .error e
    | .error e => .error e
  | fuel, [], r :: rs, ps, w =>
    match VNode.detachF fuel r w with
    | .ok (_, _, w) =>
      match applyLoopF fuel [] rs ps w with
      | .ok (ls', res', tags, w) => .ok (ls', res', .removeOld r :: tags, w)
      | .error e => .error e
    | .error e => .error e

end

/-- `VList::apply`, exposing the loop's branch trace. -/
def VList.applyF (fuel : Nat) (no_siblings : Bool) (children : List VNode)
    (previous_sibling : Option Nat) (ancestor : Option VNode) (w : World) :
    Except String (List VNode × Option Nat × List LTag × World) :=
  applyLoopF fuel (listFixup no_siblings children) (listRights ancestor)
    previous_sibling w

/-! ## Call sequences on one component node -/

/-- One completed top-level call on a `VComp`. -/
inductive Op where
  | applyOp (previous_sibling : Option Nat) (ancestor : Option CNode)
  | detachOp

def runOp (c : VComp) (w : World) : Op → Except String (VComp × World)
  | .applyOp ps anc =>
    match c.apply ps anc w with
    | .ok (c', _, _, w') => .ok (c', w')
    | .error e => .error e
  | .detachOp =>
    match c.detach w with
    | .ok (c', _, w') => .ok (c', w')
    | .error e => .error e

def runOps (c : VComp) (w : World) : List Op → Except String (VComp × World)
  | [] => .ok (c, w)
  | op :: ops =>
    match runOp c w op with
    | .ok (c', w') => runOps c' w' ops
    | .error e => .error e

/-! ## The transformer (`vcomp.rs`, closure-to-callback instances) -/

/-- `Scope<PARENT>` as observable through `send_message`: the parent's
mailbox, a queue of delivered messages. -/
def ScopeM (MSG : Type) := List MSG

/-- `sender.send_message(msg)` of the component runtime: enqueue on the
parent's mailbox. -/
def sendMessage {MSG : Type} (sender : ScopeM MSG) (msg : MSG) : ScopeM MSG :=
  List.append sender [msg]

/-- The closure built by the `Transformer<PARENT, F, Callback<IN>>`
instance: produce the message with the wrapped function, then read the
scope holder at invocation time; a populated holder receives the
message, an empty one is the fatal "not yet activated" panic. -/
def transformCallback {IN MSG : Type} (f : IN → MSG) :
    Option (ScopeM MSG) → IN → Except String (ScopeM MSG) :=
  fun scope arg =>
    let msg := f arg
    match scope with
    | some sender => .ok (sendMessage sender msg)
    | none => .error "Parent component has not activated this callback yet"

/-- The `Transformer<PARENT, F, Option<Callback<IN>>>` instance: the
same closure, wrapped in `Some`. -/
def transformCallbackOpt {IN MSG : Type} (f : IN → MSG) :
    Option (Option (ScopeM MSG) → IN → Except String (ScopeM MSG)) :=
  some fun scope arg =>
    let msg := f arg
    match scope with
    | some sender => .ok (sendMessage sender msg)
    | none => .error "Parent component has not activated this callback yet"

/-! ## Helper predicates and host-tree lemmas -/

def isDestroyEvent : Event → Bool
  | .destroy _ => true
  | _ => false

def isMountEvent : Event → Bool
  | .mountInstance _ => true
  | _ => false

def isRemoveTag : LTag → Bool
  | .removeOld _ => true
  | _ => false

def isInsertTag : LTag → Bool
  | .insert => true
  | _ => false

theorem nextSibling_of_not_mem (t₁ : List Nat) (n : Nat) (l : List Nat)
    (h : n ∉ t₁) : nextSibling (t₁ ++ n :: l) n = l.head? := by
  induction t₁ with
  | nil => simp [nextSibling]
  | cons x xs ih =>
    have hx : x ≠ n := fun hxn => h (hxn ▸ List.mem_cons_self x xs)
    simp only [List.cons_append, nextSibling, if_neg hx]
    exact ih fun hn => h (List.mem_cons_of_mem x hn)

theorem removeChildList_of_not_mem (t₁ : List Nat) (n : Nat) (l : List Nat)
    (h : n ∉ t₁) : removeChildList (t₁ ++ n :: l) n = some (t₁ ++ l) := by
  induction t₁ with
  | nil => simp [removeChildList]
  | cons x xs ih =>
    have hx : x ≠ n := fun hxn => h (hxn ▸ List.mem_cons_self x xs)
    simp only [List.cons_append, removeChildList, if_neg hx, List.append_eq]
    rw [ih fun hn => h (List.mem_cons_of_mem x hn)]
    rfl

theorem insertBeforeList_of_not_mem (t₁ : List Nat) (d s : Nat) (l : List Nat)
    (h : s ∉ t₁) : insertBeforeList (t₁ ++ s :: l) d s = some (t₁ ++ d :: s :: l) := by
  induction t₁ with
  | nil => simp [insertBeforeList]
  | cons x xs ih =>
    have hx : x ≠ s := fun hxs => h (hxs ▸ List.mem_cons_self x xs)
    simp only [List.cons_append, insertBeforeList, if_neg hx, List.append_eq]
    rw [ih fun hs => h (List.mem_cons_of_mem x hs)]
    rfl

theorem replaceNodeList_of_not_mem (t₁ : List Nat) (d r : Nat) (l : List Nat)
    (h : d ∉ t₁) : replaceNodeList (t₁ ++ d :: l) d r = t₁ ++ r :: l := by
  induction t₁ with
  | nil => simp [replaceNodeList]
  | cons x xs ih =>
    have hx : x ≠ d := fun hxd => h (hxd ▸ List.mem_cons_self x xs)
    simp only [List.cons_append, replaceNodeList, if_neg hx, List.append_eq]
    rw [ih fun hd => h (List.mem_cons_of_mem x hd)]

/-! ## Claim theorems for the component state machine -/

/-- C5: for every `VComp` whose current state is not `Unmounted`,
`apply` returns `None`, leaves the state exactly as it was, and
performs no host-tree mutation and no generator invocation (the world,
including tree and event trace, is returned untouched). -/
theorem vcomp_apply_not_unmounted_noop (c : VComp) (ps : Option Nat)
    (anc : Option CNode) (w : World) (h : ∀ g, c.state ≠ .unmounted g) :
    c.apply ps anc w = .ok (c, none, anc, w) := by
  obtain ⟨tid, st⟩ := c
  cases st with
  | unmounted g => exact absurd rfl (h g)
  | mounted m => rfl
  | mounting => rfl
  | detached => rfl
  | overwritten => rfl

/-- Witness for C5: a `Detached` component node is left untouched by
`apply`. -/
theorem vcomp_apply_not_unmounted_noop_witness :
    VComp.apply ⟨0, .detached⟩ none none ⟨[], 0, []⟩ =
      .ok (⟨0, .detached⟩, none, none, ⟨[], 0, []⟩) :=
  vcomp_apply_not_unmounted_noop ⟨0, .detached⟩ none none ⟨[], 0, []⟩
    (fun _ h => nomatch h)

/-- C4: `detach` always leaves the state `Detached`; from a `Mounted`
state with an occupied host node present in the parent it runs the
destroyer, removes that node and returns its former next sibling; from
any other state it returns nothing and leaves the world (host tree and
trace) unchanged. -/
theorem vcomp_detach_spec (c : VComp) (w : World) :
    (∀ out, c.detach w = .ok out → out.1.state = .detached) ∧
    (∀ m node t, c.state = .mounted m → m.node_ref = some node →
      removeChildList w.tree node = some t →
      c.detach w = .ok ({ c with state := .detached }, nextSibling w.tree node,
        { tree := t, fresh := w.fresh,
          events := w.events ++ [Event.destroy m.destroyer, Event.removeChild node] })) ∧
    ((∀ m, c.state ≠ .mounted m) →
      c.detach w = .ok ({ c with state := .detached }, none, w)) := by
  refine ⟨?_, ?_, ?_⟩
  · intro out h
    unfold VComp.detach at h
    split at h
    · dsimp only [World.log, World.removeChild] at h
      split at h
      · split at h
        · cases h; rfl
        · cases h
      · cases h; rfl
    · cases h; rfl
  · intro m node t hm hn ht
    unfold VComp.detach
    rw [hm]
    dsimp only [World.log, World.removeChild]
    rw [hn]
    dsimp only
    rw [ht]
    simp [List.append_assoc]
  · intro hnm
    obtain ⟨tid, st⟩ := c
    cases st with
    | unmounted g => rfl
    | mounted m => exact absurd rfl (hnm m)
    | mounting => rfl
    | detached => rfl
    | overwritten => rfl

/-- Witness for C4: detaching a mounted component occupying node 5 in
the tree `[5, 9]` destroys instance 7, removes node 5 and returns its
former next sibling 9. -/
theorem vcomp_detach_spec_witness :
    VComp.detach ⟨0, .mounted ⟨some 5, ⟨7, some 5⟩, 7⟩⟩ ⟨[5, 9], 10, []⟩ =
      .ok (⟨0, .detached⟩, some 9,
        ⟨[9], 10, [.destroy 7, .removeChild 5]⟩) := by
  have h := (vcomp_detach_spec ⟨0, .mounted ⟨some 5, ⟨7, some 5⟩, 7⟩⟩
    ⟨[5, 9], 10, []⟩).2.1 ⟨some 5, ⟨7, some 5⟩, 7⟩ 5 [9] rfl rfl (by decide)
  simpa using h

/-- C1: applying a fresh component node of kind `k` over a `Mounted`
ancestor of the same kind extracts the ancestor's payload (ancestor
state becomes `Overwritten`), never runs a destroyer (the only events
added are the scope-holder population and the properties update), and
the resulting `Mounted` payload's type-erased handle is the ancestor's
handle, i.e. the same underlying instance. -/
theorem vcomp_apply_keep_same_kind (k : Nat) (a : VComp) (m : Mounted)
    (ps : Option Nat) (w : World) (ha : a.type_id = k) (hm : a.state = .mounted m) :
    (VComp.new k).apply ps (some (.comp a)) w =
      .ok (⟨k, .mounted ⟨m.scope.node, m.scope, m.scope.inst⟩⟩, m.scope.node,
           some (.comp ⟨k, .overwritten⟩),
           { w with events := w.events ++
               [Event.setScopeHolder, Event.updateProps m.scope.inst] }) ∧
    (∀ i, Event.destroy i ∉
      [Event.setScopeHolder, Event.updateProps m.scope.inst]) := by
  obtain ⟨atid, ast⟩ := a
  dsimp only at ha hm
  subst ha hm
  constructor
  · unfold VComp.apply
    dsimp only [VComp.new]
    rw [if_pos rfl]
    unfold generator
    dsimp only [World.log]
    rw [if_neg (by simp)]
    simp [List.append_assoc]
  · intro i
    simp

/-- Witness for C1: kind 3 over kind 3 with instance 7 mounted at node
5: no destroy event, ancestor overwritten, handle still instance 7. -/
theorem vcomp_apply_keep_same_kind_witness :
    (VComp.new 3).apply none (some (.comp ⟨3, .mounted ⟨some 5, ⟨7, some 5⟩, 7⟩⟩))
        ⟨[5], 0, []⟩ =
      .ok (⟨3, .mounted ⟨some 5, ⟨7, some 5⟩, 7⟩⟩, some 5,
           some (.comp ⟨3, .overwritten⟩),
           ⟨[5], 0, [.setScopeHolder, .updateProps 7]⟩) := by
  have h := (vcomp_apply_keep_same_kind 3 ⟨3, .mounted ⟨some 5, ⟨7, some 5⟩, 7⟩⟩
    ⟨some 5, ⟨7, some 5⟩, 7⟩ none ⟨[5], 0, []⟩ rfl rfl).1
  simpa using h

/-- Completing the fresh-mount path only adds dummy-creation,
insertion and mount events: no destroyer runs and nothing is removed
from the host tree's trace. -/
theorem mountPath_events (g : Nat) (b ps : Option Nat) (w : World)
    (out : Mounted × World) (h : mountPath g b ps w = .ok out) :
    ∃ tail, out.2.events = w.events ++ tail ∧
      (∀ i, Event.destroy i ∉ tail) ∧ (∀ n, Event.removeChild n ∉ tail) := by
  unfold mountPath generator World.insertBefore World.appendChild World.log at h
  dsimp only at h
  rcases b with _ | sibling
  · rcases hps : ps.bind (nextSibling w.tree) with _ | s
    · rw [hps] at h
      dsimp only at h
      cases h
      exact ⟨[Event.createTextNode w.fresh, Event.appendChild w.fresh,
        Event.setScopeHolder, Event.mountInstance (w.fresh + 1)],
        by simp, by simp, by simp⟩
    · rw [hps] at h
      dsimp only at h
      rcases hins : insertBeforeList w.tree w.fresh s with _ | t
      · rw [hins] at h
        cases h
      · rw [hins] at h
        dsimp only at h
        cases h
        exact ⟨[Event.createTextNode w.fresh, Event.insertBefore w.fresh s,
          Event.setScopeHolder, Event.mountInstance (w.fresh + 1)],
          by simp, by simp, by simp⟩
  · dsimp only at h
    rcases hins : insertBeforeList w.tree w.fresh sibling with _ | t
    · rw [hins] at h
      cases h
    · rw [hins] at h
      dsimp only at h
      cases h
      exact ⟨[Event.createTextNode w.fresh, Event.insertBefore w.fresh sibling,
        Event.setScopeHolder, Event.mountInstance (w.fresh + 1)],
        by simp, by simp, by simp⟩

/-- C10: applying an unmounted node over a same-kind ancestor that is
not `Mounted` still marks the ancestor `Overwritten`, does not detach
it (no destroyer, no host-tree removal among the added events), and
proceeds as a fresh mount whose insertion anchor comes from
`previous_sibling` or appending — not from the ancestor
(`mountPath` with `before = none`). -/
theorem vcomp_apply_same_kind_not_mounted (g : Nat) (c a : VComp) (ps : Option Nat)
    (w : World) (hc : c.state = .unmounted g) (ht : a.type_id = c.type_id)
    (ha : ∀ m, a.state ≠ .mounted m) :
    (c.apply ps (some (.comp a)) w =
      match mountPath g none ps w with
      | .ok (mounted, w') =>
        .ok ({ c with state := .mounted mounted }, mounted.node_ref,
             some (.comp { a with state := .overwritten }), w')
      | .error e => .error e) ∧
    (∀ out, mountPath g none ps w = .ok out →
      ∃ tail, out.2.events = w.events ++ tail ∧
        (∀ i, Event.destroy i ∉ tail) ∧ (∀ n, Event.removeChild n ∉ tail)) := by
  constructor
  · obtain ⟨ctid, cst⟩ := c
    dsimp only at hc ht
    subst hc
    obtain ⟨atid, ast⟩ := a
    dsimp only at ht
    subst ht
    unfold VComp.apply
    dsimp only
    rw [if_pos rfl]
    cases ast with
    | mounted m => exact absurd rfl (ha m)
    | unmounted g2 =>
      dsimp only
      cases hmp : mountPath g none ps w with
      | ok out => obtain ⟨mounted, w'⟩ := out; rfl
      | error e => rfl
    | mounting =>
      dsimp only
      cases hmp : mountPath g none ps w with
      | ok out => obtain ⟨mounted, w'⟩ := out; rfl
      | error e => rfl
    | detached =>
      dsimp only
      cases hmp : mountPath g none ps w with
      | ok out => obtain ⟨mounted, w'⟩ := out; rfl
      | error e => rfl
    | overwritten =>
      dsimp only
      cases hmp : mountPath g none ps w with
      | ok out => obtain ⟨mounted, w'⟩ := out; rfl
      | error e => rfl
  · intro out h
    exact mountPath_events g none ps w out h

/-- Witness for C10: same kind 3 over a `Detached` ancestor; the
ancestor ends `Overwritten`, a fresh instance 11 is mounted and the
dummy-then-root is appended (no anchor from the ancestor). -/
theorem vcomp_apply_same_kind_not_mounted_witness :
    (VComp.new 3).apply none (some (.comp ⟨3, .detached⟩)) ⟨[9], 10, []⟩ =
      .ok (⟨3, .mounted ⟨some 12, ⟨11, some 12⟩, 11⟩⟩, some 12,
           some (.comp ⟨3, .overwritten⟩),
           ⟨[9, 12], 13, [.createTextNode 10, .appendChild 10,
             .setScopeHolder, .mountInstance 11]⟩) :=
  ((vcomp_apply_same_kind_not_mounted 3 (VComp.new 3) ⟨3, .detached⟩ none
    ⟨[9], 10, []⟩ rfl rfl (fun _ h => nomatch h)).1).trans rfl

/-- C6: applying a fresh component of kind `k` over a `Mounted`
ancestor of a different kind runs exactly one destroyer (the
ancestor's, through its detach), creates the placeholder text node at
the position the ancestor vacated (inserted before the ancestor's
former next sibling `s`), and performs exactly one fresh mount there. -/
theorem vcomp_apply_replace_diff_kind (k : Nat) (a : VComp) (m : Mounted)
    (n s : Nat) (t₁ t₂ : List Nat) (ps : Option Nat) (w : World)
    (hk : a.type_id ≠ k) (hm : a.state = .mounted m) (hn : m.node_ref = some n)
    (htree : w.tree = t₁ ++ n :: s :: t₂) (hn1 : n ∉ t₁) (hs1 : s ∉ t₁)
    (hfresh : ∀ x ∈ w.tree, x < w.fresh) :
    (VComp.new k).apply ps (some (.comp a)) w =
      .ok (⟨k, .mounted ⟨some (w.fresh + 2), ⟨w.fresh + 1, some (w.fresh + 2)⟩,
             w.fresh + 1⟩⟩,
           some (w.fresh + 2),
           some (.comp ⟨a.type_id, .detached⟩),
           { tree := t₁ ++ (w.fresh + 2) :: s :: t₂, fresh := w.fresh + 3,
             events := w.events ++ [.destroy m.destroyer, .removeChild n,
               .createTextNode w.fresh, .insertBefore w.fresh s,
               .setScopeHolder, .mountInstance (w.fresh + 1)] }) ∧
    List.countP isDestroyEvent [Event.destroy m.destroyer, Event.removeChild n,
      Event.createTextNode w.fresh, Event.insertBefore w.fresh s,
      Event.setScopeHolder, Event.mountInstance (w.fresh + 1)] = 1 ∧
    List.countP isMountEvent [Event.destroy m.destroyer, Event.removeChild n,
      Event.createTextNode w.fresh, Event.insertBefore w.fresh s,
      Event.setScopeHolder, Event.mountInstance (w.fresh + 1)] = 1 := by
  have hd1 : w.fresh ∉ t₁ := fun hmem =>
    absurd (hfresh w.fresh (htree ▸ List.mem_append_left _ hmem)) (lt_irrefl _)
  have hnext : nextSibling w.tree n = some s := by
    rw [htree]
    simpa using nextSibling_of_not_mem t₁ n (s :: t₂) hn1
  have hrem : removeChildList w.tree n = some (t₁ ++ s :: t₂) := by
    rw [htree]
    exact removeChildList_of_not_mem t₁ n (s :: t₂) hn1
  have hins : insertBeforeList (t₁ ++ s :: t₂) w.fresh s =
      some (t₁ ++ w.fresh :: s :: t₂) :=
    insertBeforeList_of_not_mem t₁ w.fresh s t₂ hs1
  have hrepl : replaceNodeList (t₁ ++ w.fresh :: s :: t₂) w.fresh (w.fresh + 1 + 1) =
      t₁ ++ (w.fresh + 1 + 1) :: s :: t₂ :=
    replaceNodeList_of_not_mem t₁ w.fresh (w.fresh + 1 + 1) (s :: t₂) hd1
  refine ⟨?_, by simp [List.countP_cons, isDestroyEvent, isMountEvent],
    by simp [List.countP_cons, isDestroyEvent, isMountEvent]⟩
  obtain ⟨atid, ast⟩ := a
  dsimp only at hk hm
  subst hm
  simp only [VComp.apply, VComp.detach, mountPath, generator, World.removeChild,
    World.insertBefore, World.log, VComp.new, hn, hnext, hrem, hins, hrepl,
    if_neg (Ne.symm hk)]
  simp [List.append_assoc]

/-- Witness for C6: kind 3 over mounted kind 4 (instance 7 at node 5,
next sibling 9): one destroy, one fresh mount at the vacated spot. -/
theorem vcomp_apply_replace_diff_kind_witness :
    (VComp.new 3).apply none
        (some (.comp ⟨4, .mounted ⟨some 5, ⟨7, some 5⟩, 7⟩⟩)) ⟨[5, 9], 10, []⟩ =
      .ok (⟨3, .mounted ⟨some 12, ⟨11, some 12⟩, 11⟩⟩, some 12,
           some (.comp ⟨4, .detached⟩),
           ⟨[12, 9], 13, [.destroy 7, .removeChild 5, .createTextNode 10,
             .insertBefore 10 9, .setScopeHolder, .mountInstance 11]⟩) := by
  have h := (vcomp_apply_replace_diff_kind 3 ⟨4, .mounted ⟨some 5, ⟨7, some 5⟩, 7⟩⟩
    ⟨some 5, ⟨7, some 5⟩, 7⟩ 5 9 [] [] none ⟨[5, 9], 10, []⟩
    (by decide) rfl rfl rfl (by simp) (by simp) (by decide)).1
  simpa using h

/-- A completed `apply` leaves the state as it was (the saved state is
put back over the `Mounting` guard) or `Mounted`. -/
theorem vcomp_apply_ok_state (c : VComp) (ps : Option Nat) (anc : Option CNode)
    (w : World) (out : VComp × Option Nat × Option CNode × World)
    (h : c.apply ps anc w = .ok out) :
    out.1.state = c.state ∨ ∃ mm, out.1.state = .mounted mm := by
  obtain ⟨tid, st⟩ := c
  cases st with
  | unmounted g =>
    right
    unfold VComp.apply at h
    dsimp only at h
    split at h
    · cases h
    · split at h
      · cases h
      · cases h
        exact ⟨_, rfl⟩
  | mounted m => left; cases h; rfl
  | mounting => left; cases h; rfl
  | detached => left; cases h; rfl
  | overwritten => left; cases h; rfl

/-- A completed `detach` always leaves the node `Detached`. -/
theorem vcomp_detach_ok_detached (c : VComp) (w : World)
    (out : VComp × Option Nat × World) (h : c.detach w = .ok out) :
    out.1.state = .detached := by
  unfold VComp.detach at h
  split at h
  · dsimp only [World.log, World.removeChild] at h
    split at h
    · split at h
      · cases h; rfl
      · cases h
    · cases h; rfl
  · cases h; rfl

/-- A completed call never leaves the transient `Mounting` guard
behind. -/
theorem runOp_not_mounting (c : VComp) (w : World) (op : Op) (c' : VComp)
    (w' : World) (h : runOp c w op = .ok (c', w'))
    (hc : c.state ≠ .mounting) : c'.state ≠ .mounting := by
  cases op with
  | applyOp ps anc =>
    unfold runOp at h
    dsimp only at h
    rcases heq : c.apply ps anc w with e | ⟨c2, node, anc2, w2⟩
    · rw [heq] at h; cases h
    · rw [heq] at h
      dsimp only at h
      cases h
      rcases vcomp_apply_ok_state c ps anc w _ heq with h1 | ⟨mm, h1⟩
      · rw [h1]; exact hc
      · rw [h1]; intro hcon; cases hcon
  | detachOp =>
    unfold runOp at h
    dsimp only at h
    rcases heq : c.detach w with e | ⟨c2, node, w2⟩
    · rw [heq] at h; cases h
    · rw [heq] at h
      dsimp only at h
      cases h
      rw [vcomp_detach_ok_detached c w _ heq]
      intro hcon; cases hcon

theorem runOps_not_mounting (ops : List Op) (c : VComp) (w : World) (c' : VComp)
    (w' : World) (hc : c.state ≠ .mounting)
    (h : runOps c w ops = .ok (c', w')) : c'.state ≠ .mounting := by
  induction ops generalizing c w with
  | nil =>
    unfold runOps at h
    cases h
    exact hc
  | cons op ops ih =>
    unfold runOps at h
    split at h
    · rename_i c1 w1 heq
      exact ih c1 w1 (runOp_not_mounting c w op c1 w1 heq hc) h
    · cases h

/-- C9: after any sequence of completed `apply`/`detach` calls on a
freshly constructed node, the observed state is one of `Unmounted`,
`Mounted`, `Detached`, `Overwritten` — never `Mounting`; and an
ancestor consumed by a completed `apply` is likewise never left in
`Mounting` (it ends `Overwritten` or `Detached`). -/
theorem vcomp_mounting_never_observed (k : Nat) (w : World) (ops : List Op)
    (c' : VComp) (w' : World) (h : runOps (VComp.new k) w ops = .ok (c', w')) :
    ((∃ g, c'.state = .unmounted g) ∨ (∃ m, c'.state = .mounted m) ∨
      c'.state = .detached ∨ c'.state = .overwritten) ∧
    (∀ (d b : VComp) (g : Nat) (ps : Option Nat) (wb : World)
        (out : VComp × Option Nat × Option CNode × World) (bc : VComp),
      d.state = .unmounted g → d.apply ps (some (.comp b)) wb = .ok out →
      out.2.2.1 = some (.comp bc) → bc.state ≠ .mounting) := by
  constructor
  · have hnm : c'.state ≠ .mounting :=
      runOps_not_mounting ops (VComp.new k) w c' w'
        (fun hcon => nomatch hcon) h
    cases hs : c'.state with
    | unmounted g => exact Or.inl ⟨g, rfl⟩
    | mounted m => exact Or.inr (Or.inl ⟨m, rfl⟩)
    | mounting => exact absurd hs hnm
    | detached => exact Or.inr (Or.inr (Or.inl rfl))
    | overwritten => exact Or.inr (Or.inr (Or.inr rfl))
  · intro d b g ps wb out bc hd happ hanc
    obtain ⟨dtid, dst⟩ := d
    dsimp only at hd
    subst hd
    unfold VComp.apply at happ
    dsimp only at happ
    by_cases hbt : dtid = b.type_id
    · rw [if_pos hbt] at happ
      cases hbs : b.state with
      | mounted m =>
        rw [hbs] at happ
        dsimp only at happ
        split at happ
        · cases happ
        · cases happ
          simp only [Option.some.injEq, CNode.comp.injEq] at hanc
          rw [← hanc]
          intro hcon; cases hcon
      | unmounted g2 =>
        rw [hbs] at happ
        dsimp only at happ
        split at happ
        · cases happ
        · cases happ
          simp only [Option.some.injEq, CNode.comp.injEq] at hanc
          rw [← hanc]
          intro hcon; cases hcon
      | mounting =>
        rw [hbs] at happ
        dsimp only at happ
        split at happ
        · cases happ
        · cases happ
          simp only [Option.some.injEq, CNode.comp.injEq] at hanc
          rw [← hanc]
          intro hcon; cases hcon
      | detached =>
        rw [hbs] at happ
        dsimp only at happ
        split at happ
        · cases happ
        · cases happ
          simp only [Option.some.injEq, CNode.comp.injEq] at hanc
          rw [← hanc]
          intro hcon; cases hcon
      | overwritten =>
        rw [hbs] at happ
        dsimp only at happ
        split at happ
        · cases happ
        · cases happ
          simp only [Option.some.injEq, CNode.comp.injEq] at hanc
          rw [← hanc]
          intro hcon; cases hcon
    · rw [if_neg hbt] at happ
      rcases hdet : b.detach wb with e | ⟨anc2, node2, w2⟩
      · rw [hdet] at happ
        cases happ
      · rw [hdet] at happ
        dsimp only at happ
        split at happ
        · cases happ
        · cases happ
          simp only [Option.some.injEq, CNode.comp.injEq] at hanc
          rw [← hanc, vcomp_detach_ok_detached b wb (anc2, node2, w2) hdet]
          intro hcon; cases hcon

/-- Witness for C9: a fresh node of kind 1, applied (fresh mount) then
detached, ends `Detached`. -/
theorem vcomp_mounting_never_observed_witness :
    ((∃ g, (VComp.mk 1 .detached).state = .unmounted g) ∨
      (∃ m, (VComp.mk 1 .detached).state = .mounted m) ∨
      (VComp.mk 1 .detached).state = .detached ∨
      (VComp.mk 1 .detached).state = .overwritten) ∧
    (∀ (d b : VComp) (g : Nat) (ps : Option Nat) (wb : World)
        (out : VComp × Option Nat × Option CNode × World) (bc : VComp),
      d.state = .unmounted g → d.apply ps (some (.comp b)) wb = .ok out →
      out.2.2.1 = some (.comp bc) → bc.state ≠ .mounting) := by
  have h := vcomp_mounting_never_observed 1 ⟨[], 0, []⟩
    [.applyOp none none, .detachOp] ⟨1, .detached⟩
    ⟨[], 3, [.createTextNode 0, .appendChild 0, .setScopeHolder,
      .mountInstance 1, .destroy 1, .removeChild 2]⟩ rfl
  exact h

/-- C7: a callback built by the closure-to-callback transformer (plain
or Option-wrapped), invoked on any payload: a populated scope holder
receives exactly the message the wrapped function produces, enqueued
on the parent's mailbox; an empty holder is the fatal "not yet
activated" panic — never a silent drop. -/
theorem transform_callback_semantics {IN MSG : Type} (f : IN → MSG) (arg : IN) :
    (∀ sender, transformCallback f (some sender) arg =
      .ok (sendMessage sender (f arg))) ∧
    (transformCallback f none arg =
      .error "Parent component has not activated this callback yet") ∧
    (∃ cb, transformCallbackOpt f = some cb ∧
      (∀ sender, cb (some sender) arg = .ok (sendMessage sender (f arg))) ∧
      cb none arg =
        .error "Parent component has not activated this callback yet") :=
  ⟨fun _ => rfl, rfl, ⟨_, rfl, fun _ => rfl, rfl⟩⟩

/-- Witness for C7: wrapping `n + 1` over mailbox `[0]` delivers `4`
for payload `3`; the empty holder panics. -/
theorem transform_callback_semantics_witness :
    transformCallback (fun n : Nat => n + 1) (some [0]) 3 = .ok [0, 4] ∧
    transformCallback (fun n : Nat => n + 1) none 3 =
      .error "Parent component has not activated this callback yet" :=
  ⟨(transform_callback_semantics (fun n : Nat => n + 1) 3).1 [0],
   (transform_callback_semantics (fun n : Nat => n + 1) 3).2.1⟩

/-! ## Claim theorems for the list reconciler -/

/-- C3: an empty list whose `no_siblings` flag is false gets exactly
one synthetic empty-text placeholder child before diffing, and (with
no ancestor) the applied list materializes exactly one host node —
the placeholder — never zero. -/
theorem vlist_apply_empty_placeholder (fuel : Nat) (w : World) :
    listFixup false [] = [VNode.vtext "" none] ∧
    VList.applyF (fuel + 1) false [] none none w =
      .ok ([VNode.vtext "" (some w.fresh)], some w.fresh, [LTag.insert],
        { tree := w.tree ++ [w.fresh], fresh := w.fresh + 1,
          events := w.events ++ [Event.createTextNode w.fresh,
            Event.appendChild w.fresh] }) ∧
    (w.tree ++ [w.fresh]).length = w.tree.length + 1 := by
  refine ⟨rfl, ?_, by simp⟩
  unfold VList.applyF listFixup listRights applyLoopF VNode.applyF insertSingle
    World.appendChild
  simp [applyLoopF, List.append_assoc]

/-- One step of the drain loop of `VList::detach`. -/
theorem detachListF_cons (fuel : Nat) (x : VNode) (xs : List VNode) (w : World)
    (last : Option Nat) :
    detachListF fuel (x :: xs) w last =
      match VNode.detachF fuel x w with
      | .ok (_, r, w1) => detachListF fuel xs w1 r
      | .error e => .error e := by
  rw [detachListF]

/-- The drain loop of `VList::detach` over an appended block: the
earlier children are detached first, then the later block, the running
`last_sibling` being handed over. -/
theorem detachListF_append (fuel : Nat) (xs ys : List VNode) (w : World)
    (last : Option Nat) :
    detachListF fuel (xs ++ ys) w last =
      match detachListF fuel xs w last with
      | .ok (r, w1) => detachListF fuel ys w1 r
      | .error e => .error e := by
  induction xs generalizing w last with
  | nil => rfl
  | cons x xs ih =>
    rw [List.cons_append, detachListF_cons, detachListF_cons]
    rcases hx : VNode.detachF fuel x w with e | ⟨n1, r1, w1⟩
    · rfl
    · exact ih w1 r1

/-- C8: `VList::detach` detaches every child in order — an empty list
returns `none` and leaves the world untouched; a `c :: cs` list
detaches `c` first; a `cs ++ [c]` list returns exactly the result of
the last child `c`'s detach, run after all earlier children were
detached. -/
theorem vlist_detach_in_order (fuel : Nat) (ns : Bool) (c : VNode)
    (cs : List VNode) (w : World) :
    (VNode.detachF (fuel + 1) (.vlist ns []) w = .ok (.vlist ns [], none, w)) ∧
    (VNode.detachF (fuel + 1) (.vlist ns (c :: cs)) w =
      match VNode.detachF fuel c w with
      | .ok (_, r, w1) =>
        (match detachListF fuel cs w1 r with
         | .ok (rl, w2) => .ok (.vlist ns [], rl, w2)
         | .error e => .error e)
      | .error e => .error e) ∧
    (VNode.detachF (fuel + 1) (.vlist ns (cs ++ [c])) w =
      match detachListF fuel cs w none with
      | .ok (_, w1) =>
        (match VNode.detachF fuel c w1 with
         | .ok (_, rl, w2) => .ok (.vlist ns [], rl, w2)
         | .error e => .error e)
      | .error e => .error e) := by
  refine ⟨rfl, ?_, ?_⟩
  · rw [VNode.detachF, detachListF_cons]
    rcases hx : VNode.detachF fuel c w with e | ⟨n1, r1, w1⟩
    · rfl
    · rfl
  · rw [VNode.detachF, detachListF_append]
    rcases hcs : detachListF fuel cs w none with e | ⟨r1, w1⟩
    · rfl
    · dsimp only
      rw [detachListF_cons]
      rcases hc : VNode.detachF fuel c w1 with e | ⟨n2, r2, w2⟩
      · rfl
      · rfl

/-! ## The positional trace of the pairwise loop (for C2) -/

theorem applyLoopF_nil_nil (fuel : Nat) (ps : Option Nat) (w : World) :
    applyLoopF fuel [] [] ps w = .ok ([], ps, [], w) := by
  rw [applyLoopF]

theorem applyLoopF_cons_cons (fuel : Nat) (l : VNode) (ls : List VNode)
    (r : VNode) (rs : List VNode) (ps : Option Nat) (w : World) :
    applyLoopF fuel (l :: ls) (r :: rs) ps w =
      match VNode.applyF fuel l ps (some r) w with
      | .ok (l', res, w1) =>
        (match applyLoopF fuel ls rs res w1 with
         | .ok (ls', res', tags, w2) => .ok (l' :: ls', res', .pair r :: tags, w2)
         | .error e => .error e)
      | .error e => .error e := by
  rw [applyLoopF]

theorem applyLoopF_cons_nil (fuel : Nat) (l : VNode) (ls : List VNode)
    (ps : Option Nat) (w : World) :
    applyLoopF fuel (l :: ls) [] ps w =
      match VNode.applyF fuel l ps none w with
      | .ok (l', res, w1) =>
        (match applyLoopF fuel ls [] res w1 with
         | .ok (ls', res', tags, w2) => .ok (l' :: ls', res', .insert :: tags, w2)
         | .error e => .error e)
      | .error e => .error e := by
  rw [applyLoopF]

theorem applyLoopF_nil_cons (fuel : Nat) (r : VNode) (rs : List VNode)
    (ps : Option Nat) (w : World) :
    applyLoopF fuel [] (r :: rs) ps w =
      match VNode.detachF fuel r w with
      | .ok (_, _, w1) =>
        (match applyLoopF fuel [] rs ps w1 with
         | .ok (ls', res', tags, w2) => .ok (ls', res', .removeOld r :: tags, w2)
         | .error e => .error e)
      | .error e => .error e := by
  rw [applyLoopF]

/-- With the new side exhausted, the loop detaches every remaining old
element. -/
theorem applyLoopF_tags_nil_left (fuel : Nat) (rights : List VNode)
    (ps : Option Nat) (w : World)
    (out : List VNode × Option Nat × List LTag × World)
    (h : applyLoopF fuel [] rights ps w = .ok out) :
    out.2.2.1 = rights.map LTag.removeOld := by
  induction rights generalizing w out with
  | nil =>
    rw [applyLoopF_nil_nil] at h
    cases h
    rfl
  | cons r rs ih =>
    rw [applyLoopF_nil_cons] at h
    rcases hd : VNode.detachF fuel r w with e | ⟨n1, r1, w1⟩
    · rw [hd] at h; cases h
    · rw [hd] at h
      dsimp only at h
      rcases hloop : applyLoopF fuel [] rs ps w1 with e | ⟨ls', res', tags, w2⟩
      · rw [hloop] at h; cases h
      · rw [hloop] at h
        cases h
        have := ih w1 (ls', res', tags, w2) hloop
        simp only [List.map_cons]
        rw [← this]

/-- The complete branch trace of the loop: the first `min m n`
positions are positional pairs with the corresponding old elements,
then `m - n` pure insertions, then `n - m` detaches of surplus old
elements. -/
theorem applyLoopF_tags (lefts : List VNode) (fuel : Nat) (rights : List VNode)
    (ps : Option Nat) (w : World)
    (out : List VNode × Option Nat × List LTag × World)
    (h : applyLoopF fuel lefts rights ps w = .ok out) :
    out.2.2.1 = (rights.take lefts.length).map LTag.pair
      ++ List.replicate (lefts.length - rights.length) LTag.insert
      ++ (rights.drop lefts.length).map LTag.removeOld := by
  induction lefts generalizing rights ps w out with
  | nil => simpa using applyLoopF_tags_nil_left fuel rights ps w out h
  | cons l ls ih =>
    cases rights with
    | nil =>
      rw [applyLoopF_cons_nil] at h
      rcases ha : VNode.applyF fuel l ps none w with e | ⟨l', res, w1⟩
      · rw [ha] at h; cases h
      · rw [ha] at h
        dsimp only at h
        rcases hloop : applyLoopF fuel ls [] res w1 with e | ⟨ls', res', tags, w2⟩
        · rw [hloop] at h; cases h
        · rw [hloop] at h
          cases h
          have htags := ih [] res w1 (ls', res', tags, w2) hloop
          simp only [List.take_nil, List.map_nil, List.nil_append, List.drop_nil,
            Nat.sub_zero, List.length_nil, List.append_nil] at htags ⊢
          rw [htags]
          simp [List.replicate_succ]
    | cons r rs =>
      rw [applyLoopF_cons_cons] at h
      rcases ha : VNode.applyF fuel l ps (some r) w with e | ⟨l', res, w1⟩
      · rw [ha] at h; cases h
      · rw [ha] at h
        dsimp only at h
        rcases hloop : applyLoopF fuel ls rs res w1 with e | ⟨ls', res', tags, w2⟩
        · rw [hloop] at h; cases h
        · rw [hloop] at h
          cases h
          have htags := ih rs res w1 (ls', res', tags, w2) hloop
          simp only [List.length_cons, List.take_succ_cons, List.map_cons,
            List.drop_succ_cons, Nat.succ_sub_succ, List.cons_append]
          rw [← htags]

theorem countP_removeTag_map_pair (l : List VNode) :
    (l.map LTag.pair).countP isRemoveTag = 0 := by
  induction l with
  | nil => rfl
  | cons x xs ih => simp [List.countP_cons, isRemoveTag, ih]

theorem countP_removeTag_map_removeOld (l : List VNode) :
    (l.map LTag.removeOld).countP isRemoveTag = l.length := by
  induction l with
  | nil => rfl
  | cons x xs ih => simp [List.countP_cons, isRemoveTag, ih]

theorem countP_removeTag_replicate_insert (k : Nat) :
    (List.replicate k LTag.insert).countP isRemoveTag = 0 := by
  induction k with
  | zero => rfl
  | succ k ih => simp [List.replicate_succ, List.countP_cons, isRemoveTag, ih]

theorem countP_insertTag_map_pair (l : List VNode) :
    (l.map LTag.pair).countP isInsertTag = 0 := by
  induction l with
  | nil => rfl
  | cons x xs ih => simp [List.countP_cons, isInsertTag, ih]

theorem countP_insertTag_map_removeOld (l : List VNode) :
    (l.map LTag.removeOld).countP isInsertTag = 0 := by
  induction l with
  | nil => rfl
  | cons x xs ih => simp [List.countP_cons, isInsertTag, ih]

theorem countP_insertTag_replicate_insert (k : Nat) :
    (List.replicate k LTag.insert).countP isInsertTag = k := by
  induction k with
  | zero => rfl
  | succ k ih => simp [List.replicate_succ, List.countP_cons, isInsertTag, ih]

/-- C2 (amended): for a list whose children sequence is nonempty or
whose `no_siblings` flag is set (so the empty-list placeholder of C3
does not fire), applying `m` children over an ancestor list of `n`
children gives: the first `min m n` positions update-in-place against
the positionally corresponding old element, exactly `m - n` pure
insertions, and exactly `n - m` detaches of old elements. -/
theorem vlist_apply_positional_diff (fuel : Nat) (ns ns2 : Bool)
    (cs rights : List VNode) (ps : Option Nat) (w : World)
    (out : List VNode × Option Nat × List LTag × World)
    (hne : cs ≠ [] ∨ ns = true)
    (h : VList.applyF fuel ns cs ps (some (.vlist ns2 rights)) w = .ok out) :
    out.2.2.1 = (rights.take cs.length).map LTag.pair
      ++ List.replicate (cs.length - rights.length) LTag.insert
      ++ (rights.drop cs.length).map LTag.removeOld ∧
    out.2.2.1.countP isRemoveTag = rights.length - cs.length ∧
    out.2.2.1.countP isInsertTag = cs.length - rights.length := by
  have hfix : listFixup ns cs = cs := by
    rcases hne with hne | hne
    · cases cs with
      | nil => exact absurd rfl hne
      | cons x xs => simp [listFixup]
    · subst hne
      simp [listFixup]
  unfold VList.applyF at h
  rw [hfix] at h
  dsimp only [listRights] at h
  have ht := applyLoopF_tags cs fuel rights ps w out h
  refine ⟨ht, ?_, ?_⟩
  · rw [ht]
    simp only [List.countP_append, countP_removeTag_map_pair,
      countP_removeTag_map_removeOld, countP_removeTag_replicate_insert]
    simp [List.length_drop]
  · rw [ht]
    simp only [List.countP_append, countP_insertTag_map_pair,
      countP_insertTag_map_removeOld, countP_insertTag_replicate_insert]
    simp

/-- Witness for C2: one new child over two old ones — position 0 pairs
with the first old element, the surplus old element is detached. -/
theorem vlist_apply_positional_diff_witness :
    ([VNode.vother (some 10)], some 10,
      [LTag.pair (VNode.vother (some 1)), LTag.removeOld (VNode.vother (some 2))],
      (⟨[10], 11, [.removeChild 1, .createNode 10, .insertBefore 10 2,
        .removeChild 2]⟩ : World)).2.2.1 =
      (([VNode.vother (some 1), VNode.vother (some 2)].take
          [VNode.vother none].length).map LTag.pair
        ++ List.replicate ([VNode.vother none].length -
            [VNode.vother (some 1), VNode.vother (some 2)].length) LTag.insert
        ++ ([VNode.vother (some 1), VNode.vother (some 2)].drop
            [VNode.vother none].length).map LTag.removeOld) ∧
    ([VNode.vother (some 10)], some 10,
      [LTag.pair (VNode.vother (some 1)), LTag.removeOld (VNode.vother (some 2))],
      (⟨[10], 11, [.removeChild 1, .createNode 10, .insertBefore 10 2,
        .removeChild 2]⟩ : World)).2.2.1.countP isRemoveTag =
      [VNode.vother (some 1), VNode.vother (some 2)].length -
        [VNode.vother none].length ∧
    ([VNode.vother (some 10)], some 10,
      [LTag.pair (VNode.vother (some 1)), LTag.removeOld (VNode.vother (some 2))],
      (⟨[10], 11, [.removeChild 1, .createNode 10, .insertBefore 10 2,
        .removeChild 2]⟩ : World)).2.2.1.countP isInsertTag =
      [VNode.vother none].length -
        [VNode.vother (some 1), VNode.vother (some 2)].length :=
  vlist_apply_positional_diff 5 false false [VNode.vother none]
    [VNode.vother (some 1), VNode.vother (some 2)] none ⟨[1, 2], 10, []⟩
    ([VNode.vother (some 10)], some 10,
      [LTag.pair (VNode.vother (some 1)), LTag.removeOld (VNode.vother (some 2))],
      ⟨[10], 11, [.removeChild 1, .createNode 10, .insertBefore 10 2, .removeChild 2]⟩)
    (Or.inl (fun hcon => nomatch hcon))
    (by simp [VList.applyF, applyLoopF, VNode.applyF, VNode.detachF, listFixup,
      listRights, singleDetach, insertSingle, World.removeChild, World.insertBefore,
      World.appendChild, World.log, nextSibling, removeChildList, insertBeforeList])

/-- Counterexample to C2 as stated: an empty list (`m = 0`,
`no_siblings = false`) applied over an ancestor list of `n = 2`
children performs 1 detach, not `max(0, n - m) = 2`, because the
empty-list placeholder makes the diffed left length 1. -/
theorem vlist_apply_positional_diff_cex :
    VList.applyF 5 false [] none
        (some (VNode.vlist false [VNode.vother (some 1), VNode.vother (some 2)]))
        ⟨[1, 2], 10, []⟩ =
      .ok ([VNode.vtext "" (some 10)], some 10,
        [LTag.pair (VNode.vother (some 1)), LTag.removeOld (VNode.vother (some 2))],
        ⟨[10], 11, [.removeChild 1, .createTextNode 10, .insertBefore 10 2,
          .removeChild 2]⟩) ∧
    List.countP isRemoveTag
      [LTag.pair (VNode.vother (some 1)), LTag.removeOld (VNode.vother (some 2))] = 1 ∧
    List.countP isRemoveTag
      [LTag.pair (VNode.vother (some 1)), LTag.removeOld (VNode.vother (some 2))] ≠ 2 := by
  refine ⟨?_, ?_, ?_⟩
  · simp [VList.applyF, applyLoopF, VNode.applyF, VNode.detachF, listFixup,
      listRights, singleDetach, insertSingle, World.removeChild, World.insertBefore,
      World.appendChild, World.log, nextSibling, removeChildList, insertBeforeList]
  · simp [List.countP_cons, isRemoveTag]
  · simp [List.countP_cons, isRemoveTag]

end Yew
